import Mathlib

/-!
Verification of the dyrics lookahead rate limiter and lyrics lookup.

This file gives a shallow embedding of the core algorithms of the dyrics
repository (src/discord.rs and src/lyrics.rs) and proves properties of the
embedded definitions.

Modelling conventions:
* `std::time::Duration` values are modelled as natural numbers counting
  milliseconds (all constants in the source are whole milliseconds, and the
  stored latency estimate is rebuilt from a whole-millisecond count).
* `Instant` timestamps are modelled as natural numbers on a global
  millisecond clock; `Instant::now()` becomes an explicit `now` argument.
  `Instant::duration_since` saturates at zero, as does `Nat` subtraction.
* The `f64` exponential-moving-average blend in `update_latency` is modelled
  with exact rational arithmetic; the `as u64` conversion of the non-negative
  average is `Rat.floor` followed by `Int.toNat`.
* Mutation of the `RateLimiter` struct becomes explicit state passing on a
  `RateLimiter` structure; fallible async calls take the outcome of the one
  HTTP send they perform as an explicit `SendOutcome` argument and return
  `Except Unit` mirroring `Result` with `?` propagation.
* `Vec::sort_by_key` is a stable sort; it is modelled by a stable insertion
  sort (`sortByStart`), which computes the same list as any stable sort by
  the same key.
-/

namespace Dyrics

/-- Rate limit: maximum updates allowed within the window (src/discord.rs). -/
def RATE_LIMIT_MAX_UPDATES : Nat := 3

/-- Rate limit: time window, 10 seconds, in milliseconds (src/discord.rs). -/
def RATE_LIMIT_WINDOW : Nat := 10000

/-- Minimum interval between updates in milliseconds (src/discord.rs). -/
def MIN_UPDATE_INTERVAL : Nat := 3334

/-- Separator used when batching multiple lines together (src/discord.rs). -/
def BATCH_SEPARATOR : String := ". "

/-- Smoothing factor for latency estimation, the f64 constant 0.2 modelled as
an exact rational (src/discord.rs). -/
def LATENCY_SMOOTHING : ℚ := 1 / 5

/-- Minimum latency clamp in milliseconds (src/discord.rs). -/
def MIN_LATENCY_MS : Nat := 10

/-- Maximum latency clamp in milliseconds (src/discord.rs). -/
def MAX_LATENCY_MS : Nat := 2000

/-- A timed lyric line for lookahead processing (src/lyrics.rs `TimedLine`). -/
structure TimedLine where
  text : String
  start_time : Nat
  end_time : Nat
deriving DecidableEq, Repr

/-- A scheduled status update (src/discord.rs `ScheduledUpdate`). -/
structure ScheduledUpdate where
  display_time : Nat
  text : String
deriving DecidableEq, Repr

/-- Insert a line into a list sorted by `start_time`, before the first
strictly greater key and after equal keys already present.  Auxiliary for
`sortByStart`. -/
def insertByStart (l : TimedLine) : List TimedLine → List TimedLine
  | [] => [l]
  | x :: xs =>
    if l.start_time ≤ x.start_time then l :: x :: xs else x :: insertByStart l xs

/-- Stable sort by `start_time`, modelling `upcoming.sort_by_key(|l| l.start_time)`
in `RateLimiter::build_schedule` (src/discord.rs).  Rust's `sort_by_key` is a
stable sort, and a stable insertion sort computes the same permutation. -/
def sortByStart : List TimedLine → List TimedLine
  | [] => []
  | x :: xs => insertByStart x (sortByStart xs)

/-- The while-loop body of `RateLimiter::build_schedule` (src/discord.rs,
lines 132-182).  The schedule is accumulated in reverse so that the most
recently pushed update (`self.schedule.back_mut()`) is the head of `acc`.
`na` is the `next_available` variable. -/
def build_schedule_loop : List TimedLine → Nat → List ScheduledUpdate → List ScheduledUpdate
  | [], _, acc => acc
  | line :: rest, na, acc =>
    if na ≤ line.start_time then
      build_schedule_loop rest (line.start_time + MIN_UPDATE_INTERVAL)
        ({ display_time := line.start_time, text := line.text } :: acc)
    else
      let batchRest := rest.takeWhile fun l => decide (l.start_time < na)
      let remaining := rest.dropWhile fun l => decide (l.start_time < na)
      match acc with
      | prev :: accTail =>
        build_schedule_loop remaining na
          ({ prev with
              text := prev.text ++ BATCH_SEPARATOR ++
                String.intercalate BATCH_SEPARATOR ((line :: batchRest).map TimedLine.text) } ::
            accTail)
      | [] =>
        build_schedule_loop remaining (line.start_time + MIN_UPDATE_INTERVAL)
          [{ display_time := line.start_time,
             text := String.intercalate BATCH_SEPARATOR ((line :: batchRest).map TimedLine.text) }]
termination_by l => l.length
decreasing_by
  · simp
  · exact Nat.lt_succ_of_le (List.Sublist.length_le (List.dropWhile_sublist _))
  · exact Nat.lt_succ_of_le (List.Sublist.length_le (List.dropWhile_sublist _))

/-- `RateLimiter::build_schedule` (src/discord.rs): filter to lines that have
not ended yet, stable-sort by start time, then run the lookahead loop with
`next_available` initialised to the current position.  Returns the rebuilt
schedule front-to-back. -/
def build_schedule (lines : List TimedLine) (current_position : Nat) : List ScheduledUpdate :=
  let upcoming := sortByStart (lines.filter fun l => decide (current_position < l.end_time))
  (build_schedule_loop upcoming current_position []).reverse

/-- The mutable fields of the `RateLimiter` struct (src/discord.rs); the
HTTP client is omitted since it carries no program state. -/
structure RateLimiter where
  timestamps : List Nat
  schedule : List ScheduledUpdate
  latency_estimate : Nat
  last_sent : Option String
deriving DecidableEq, Repr

/-- `RateLimiter::new` (src/discord.rs). -/
def RateLimiter.new : RateLimiter :=
  { timestamps := [], schedule := [], latency_estimate := 0, last_sent := none }

/-- `RateLimiter::cleanup_old_timestamps` (src/discord.rs): pop timestamps
from the front while they are strictly older than the rate-limit window. -/
def cleanup_old_timestamps (now : Nat) (timestamps : List Nat) : List Nat :=
  timestamps.dropWhile fun ts => decide (RATE_LIMIT_WINDOW < now - ts)

/-- `RateLimiter::has_capacity` (src/discord.rs): prune, then compare the
count of surviving timestamps with the maximum.  (In the source the pruned
list also replaces `self.timestamps`; state-updating callers below use
`cleanup_old_timestamps` for that part.) -/
def has_capacity (now : Nat) (timestamps : List Nat) : Bool :=
  decide ((cleanup_old_timestamps now timestamps).length < RATE_LIMIT_MAX_UPDATES)

/-- `RateLimiter::update_latency` (src/discord.rs): halve the round trip,
clamp to `[MIN_LATENCY_MS, MAX_LATENCY_MS]`, then either adopt the first
sample outright or blend by exponential moving average and truncate back to
whole milliseconds. -/
def update_latency (latency_estimate : Nat) (request_duration : Nat) : Nat :=
  let raw_latency := request_duration / 2
  let clamped := max MIN_LATENCY_MS (min raw_latency MAX_LATENCY_MS)
  if latency_estimate = 0 then
    clamped
  else
    let old_ms : ℚ := latency_estimate
    let new_ms : ℚ := clamped
    let averaged := LATENCY_SMOOTHING * new_ms + (1 - LATENCY_SMOOTHING) * old_ms
    (Rat.floor averaged).toNat

/-- `RateLimiter::get_due_update` (src/discord.rs): if the front scheduled
update's display time has been reached by `position + latency_estimate`, pop
and return its text. -/
def get_due_update (s : RateLimiter) (current_position : Nat) : Option String × RateLimiter :=
  let send_threshold := current_position + s.latency_estimate
  match s.schedule with
  | [] => (none, s)
  | next :: rest =>
    if next.display_time ≤ send_threshold then
      (some next.text, { s with schedule := rest })
    else
      (none, s)

/-- `RateLimiter::reset` (src/discord.rs): clear the schedule and the
last-sent marker.  No other field is touched. -/
def RateLimiter.reset (s : RateLimiter) : RateLimiter :=
  { s with schedule := [], last_sent := none }

/-- Outcome of the one HTTP send a fallible `RateLimiter` method performs:
either it succeeded after the given round-trip duration, or it failed. -/
inductive SendOutcome where
  | success (request_duration : Nat)
  | failure
deriving DecidableEq, Repr

/-- `RateLimiter::clear_status` (src/discord.rs): unconditionally clear the
schedule and last-sent marker; return `Ok` without sending when the pruned
rate window is full; otherwise perform the HTTP clear, propagating its
failure as an error (`?`).  The returned `Bool` records whether the HTTP
clearing call was issued. -/
def clear_status (s : RateLimiter) (now : Nat) (outcome : SendOutcome) :
    Except Unit (RateLimiter × Bool) :=
  let s1 : RateLimiter :=
    { s with
        schedule := [], last_sent := none,
        timestamps := cleanup_old_timestamps now s.timestamps }
  if RATE_LIMIT_MAX_UPDATES ≤ s1.timestamps.length then
    Except.ok (s1, false)
  else
    match outcome with
    | SendOutcome.failure => Except.error ()
    | SendOutcome.success d =>
      Except.ok
        ({ s1 with
            latency_estimate := update_latency s1.latency_estimate d,
            timestamps := s1.timestamps ++ [now] }, true)

/-- The playback-stopped arm of `status_loop` (src/discord.rs, lines
357-363), taken when the playback state is `None` while a track id was
previously tracked: `clear_status` is awaited with `?` (so its error aborts
the loop), then `last_track_id` becomes `none` and `schedule_built` becomes
`false`.  The result carries the rate limiter plus the new `last_track_id`
and `schedule_built` values. -/
def status_loop_on_stop (s : RateLimiter) (now : Nat) (outcome : SendOutcome) :
    Except Unit (RateLimiter × Option String × Bool) :=
  match clear_status s now outcome with
  | Except.error e => Except.error e
  | Except.ok (s2, _) => Except.ok (s2, none, false)

/-- Iterated `get_due_update` against a list of successive playback
positions, returning the option popped at each poll (delivery-loop view of
the schedule draining). -/
def run_due_updates (s : RateLimiter) : List Nat → List (Option String)
  | [] => []
  | p :: ps =>
    let r := get_due_update s p
    r.1 :: run_due_updates r.2 ps

/-- Folding `update_latency` over a sequence of round-trip samples starting
from the fresh estimate of `RateLimiter::new`. -/
def run_latency (samples : List Nat) : Nat :=
  samples.foldl update_latency 0

/-- A single syllable with timing information (src/lyrics.rs
`SyllableLyricsSyllable`); the serde-only `type`/`opposite_aligned` metadata
fields, never read by the code under verification, are omitted. -/
structure SyllableLyricsSyllable where
  text : String
  is_part_of_word : Bool
  start_time : Nat
  end_time : Nat
deriving DecidableEq, Repr

/-- Lead vocals with syllable-level timing (src/lyrics.rs `SyllableLyricsLead`). -/
structure SyllableLyricsLead where
  syllables : List SyllableLyricsSyllable
  start_time : Nat
  end_time : Nat
deriving DecidableEq, Repr

/-- A line of syllable-synced lyrics (src/lyrics.rs `SyllableLyricsLine`). -/
structure SyllableLyricsLine where
  lead : SyllableLyricsLead
deriving DecidableEq, Repr

/-- A line of line-synced lyrics (src/lyrics.rs `LineLyricsLine`). -/
structure LineLyricsLine where
  text : String
  start_time : Nat
  end_time : Nat
deriving DecidableEq, Repr

/-- The two lyrics synchronisation shapes (src/lyrics.rs `LyricsContent`). -/
inductive LyricsContent where
  | syllable (lines : List SyllableLyricsLine)
  | line (lines : List LineLyricsLine)
deriving DecidableEq, Repr

/-- Container for lyrics with timing information (src/lyrics.rs `Lyrics`). -/
structure Lyrics where
  start_time : Nat
  end_time : Nat
  content : LyricsContent
deriving DecidableEq, Repr

/-- The shared `min_by_key` key used by `find_nearest_line` and
`find_nearest_syllable_line` (src/lyrics.rs): zero inside the
`[start_time, end_time]` interval, otherwise the distance to the interval as
computed by the source's two-sided branch. -/
def durationDist (start_t end_t target : Nat) : Nat :=
  if start_t ≤ target ∧ target ≤ end_t then 0
  else if target < start_t then start_t - target
  else target - end_t

/-- Rust's `Iterator::min_by_key`: fold keeping the first element attaining
the minimal key (a later element replaces the best only on a strictly
smaller key). -/
def min_by_key {α : Type} (key : α → Nat) (l : List α) : Option α :=
  l.foldl
    (fun best x =>
      match best with
      | none => some x
      | some b => if key x < key b then some x else some b)
    none

/-- `find_nearest_line` (src/lyrics.rs). -/
def find_nearest_line (lines : List LineLyricsLine) (target : Nat) : Option LineLyricsLine :=
  min_by_key (fun line => durationDist line.start_time line.end_time target) lines

/-- `find_nearest_syllable_line` (src/lyrics.rs). -/
def find_nearest_syllable_line (lines : List SyllableLyricsLine) (target : Nat) :
    Option SyllableLyricsLine :=
  min_by_key (fun line => durationDist line.lead.start_time line.lead.end_time target) lines

/-- Concatenation of a syllable line's syllables, inserting a space before a
syllable that is not part of the previous word (src/lyrics.rs
`Lyrics::get_text_at`, syllable arm). -/
def syllableLineText (line : SyllableLyricsLine) : String :=
  line.lead.syllables.foldl
    (fun result syllable =>
      (if result ≠ "" ∧ syllable.is_part_of_word = false then result ++ " " else result) ++
        syllable.text)
    ""

/-- `Lyrics::get_text_at` (src/lyrics.rs). -/
def get_text_at (lyr : Lyrics) (timestamp : Nat) : Option String :=
  match lyr.content with
  | LyricsContent.syllable lines =>
    (find_nearest_syllable_line lines timestamp).map syllableLineText
  | LyricsContent.line lines =>
    (find_nearest_line lines timestamp).map LineLyricsLine.text

/-- Modelled from the spec (refinement target for C9, not from the source):
the distance from a timestamp to a span, zero when the `[start, end]`
interval contains the timestamp and otherwise the numerical distance to the
closest interval boundary. -/
def specBoundaryDist (start_t end_t target : Nat) : Nat :=
  if start_t ≤ target ∧ target ≤ end_t then 0
  else min (max start_t target - min start_t target) (max end_t target - min end_t target)

/-- Modelled from the spec (refinement target for C9, not from the source):
the first element of the list attaining the minimal key, i.e. ties are
broken in favour of the earliest element in iteration order. -/
def specFirstMinBy {α : Type} (key : α → Nat) : List α → Option α
  | [] => none
  | x :: xs =>
    match specFirstMinBy key xs with
    | none => some x
    | some b => if key b < key x then some b else some x

/-- Modelled from the spec (refinement target for C9, not from the source):
the "text at timestamp" query described by the spec — the text of the first
minimal-distance line under the contains-or-nearest-boundary distance. -/
def spec_text_at (lyr : Lyrics) (timestamp : Nat) : Option String :=
  match lyr.content with
  | LyricsContent.syllable lines =>
    (specFirstMinBy
        (fun line => specBoundaryDist line.lead.start_time line.lead.end_time timestamp)
        lines).map syllableLineText
  | LyricsContent.line lines =>
    (specFirstMinBy
        (fun line => specBoundaryDist line.start_time line.end_time timestamp)
        lines).map LineLyricsLine.text

/-- Well-formedness of lyric lines (the spec's data-model invariant
`start <= end` for every span). -/
def wellFormedLyrics (lyr : Lyrics) : Prop :=
  match lyr.content with
  | LyricsContent.syllable lines => ∀ line ∈ lines, line.lead.start_time ≤ line.lead.end_time
  | LyricsContent.line lines => ∀ line ∈ lines, line.start_time ≤ line.end_time

/-! Helper lemmas. -/

/-- Unfolding lemma for the empty case of `String.intercalate.go`. -/
theorem intercalate_go_nil (a s : String) : String.intercalate.go a s [] = a := rfl

/-- Unfolding lemma for the cons case of `String.intercalate.go`. -/
theorem intercalate_go_cons (a s b : String) (l : List String) :
    String.intercalate.go a s (b :: l) = String.intercalate.go (a ++ s ++ b) s l := rfl

/-- The singleton case of `String.intercalate` (a one-element batch keeps its
text unchanged). -/
theorem intercalate_singleton (s a : String) : String.intercalate s [a] = a := rfl

/-! Claim theorems. -/

/-- C2: on the three spans {"A",0,1000}, {"B",1000,2000}, {"C",1100,2100}
(milliseconds) with the built-in 3334 ms minimum update interval and current
position 0, `build_schedule` produces exactly one scheduled update, at
display time 0 with text "A. B. C" (spans B and C merged into A's update via
the batch separator). -/
theorem build_schedule_batches_overflow_example :
    build_schedule
        [{ text := "A", start_time := 0, end_time := 1000 },
         { text := "B", start_time := 1000, end_time := 2000 },
         { text := "C", start_time := 1100, end_time := 2100 }] 0 =
      [{ display_time := 0, text := "A. B. C" }] := by
  simp [build_schedule, build_schedule_loop, sortByStart, insertByStart,
    MIN_UPDATE_INTERVAL, BATCH_SEPARATOR, String.intercalate,
    intercalate_go_cons, intercalate_go_nil]

/-- C5 counterexample: contrary to the claim, `RateLimiter::reset` does not
zero the latency estimate.  From a limiter whose estimate is 120 ms, the
estimate after `reset` is still 120 ms, not 0. -/
theorem reset_preserves_latency_counterexample :
    (RateLimiter.reset
        { timestamps := [], schedule := [], latency_estimate := 120,
          last_sent := none }).latency_estimate = 120 ∧
      ¬(RateLimiter.reset
          { timestamps := [], schedule := [], latency_estimate := 120,
            last_sent := none }).latency_estimate = 0 := by
  constructor
  · rfl
  · decide

/-- C5 amended: the latency estimator's state changes only via new samples;
`RateLimiter::reset` (invoked on every track change) clears only the
schedule and the last-sent marker, leaving the latency estimate (and the
rate-window timestamps) unchanged, and only `RateLimiter::new` starts the
estimate at zero. -/
theorem reset_touches_only_schedule_and_last_sent (s : RateLimiter) :
    s.reset.latency_estimate = s.latency_estimate ∧
      s.reset.timestamps = s.timestamps ∧
      s.reset.schedule = [] ∧
      s.reset.last_sent = none ∧
      RateLimiter.new.latency_estimate = 0 := by
  refine ⟨rfl, rfl, rfl, rfl, rfl⟩

/-- Helper for C8: once the schedule is empty, every subsequent
`get_due_update` poll returns `none` and leaves the schedule empty. -/
theorem run_due_updates_empty_schedule (s : RateLimiter) (hs : s.schedule = []) :
    ∀ ps : List Nat, run_due_updates s ps = ps.map fun _ => none := by
  intro ps
  induction ps generalizing s with
  | nil => rfl
  | cons p ps ih =>
    have hstep : get_due_update s p = (none, s) := by
      simp [get_due_update, hs]
    simp [run_due_updates, hstep, ih s hs]

/-- C8: a track-change `reset` atomically clears both the scheduled-update
queue and the last-sent marker, and for every rate-limiter state and every
sequence of playback positions polled afterwards, no update that was queued
before the reset is ever returned by `get_due_update`: every poll after the
reset yields `none`. -/
theorem reset_cancels_pending_updates (s : RateLimiter) (ps : List Nat) :
    s.reset.schedule = [] ∧
      s.reset.last_sent = none ∧
      run_due_updates s.reset ps = ps.map fun _ => none := by
  refine ⟨rfl, rfl, run_due_updates_empty_schedule s.reset rfl ps⟩

/-- Bridge between the executable `Rat.floor` and the `Int.floor` notation. -/
theorem rat_floor_eq_int_floor (q : ℚ) : Rat.floor q = ⌊q⌋ := by
  rw [Rat.floor_def', Rat.floor_def]

/-- C6: from a zero estimate, a 240 ms round-trip sample sets the latency
estimate to exactly 120 ms (first clamped half-round-trip adopted outright),
and from a 120 ms estimate a 40 ms round-trip sample yields exactly 100 ms
(0.2 * 20 + 0.8 * 120 with millisecond truncation). -/
theorem update_latency_first_and_second_sample :
    update_latency 0 240 = 120 ∧ update_latency 120 40 = 100 := by
  constructor
  · rfl
  · have h1 : update_latency 120 40 =
        (Rat.floor (1 / 5 * ((20 : Nat) : ℚ) + (1 - 1 / 5) * ((120 : Nat) : ℚ))).toNat := by
      simp [update_latency, LATENCY_SMOOTHING, MIN_LATENCY_MS, MAX_LATENCY_MS]
    have h2 : (1 / 5 * ((20 : Nat) : ℚ) + (1 - 1 / 5) * ((120 : Nat) : ℚ)) = (100 : ℚ) := by
      norm_num
    rw [h1, h2, rat_floor_eq_int_floor]
    have h3 : ⌊(100 : ℚ)⌋ = 100 := by norm_num
    rw [h3]
    rfl

/-- Helper for C10: one `update_latency` step starting from a state that is
either fresh (zero) or already within the clamp range lands inside the clamp
range `[MIN_LATENCY_MS, MAX_LATENCY_MS]`. -/
theorem update_latency_mem_range (est d : Nat)
    (h : est = 0 ∨ (MIN_LATENCY_MS ≤ est ∧ est ≤ MAX_LATENCY_MS)) :
    MIN_LATENCY_MS ≤ update_latency est d ∧ update_latency est d ≤ MAX_LATENCY_MS := by
  unfold update_latency
  have hcl : MIN_LATENCY_MS ≤ max MIN_LATENCY_MS (min (d / 2) MAX_LATENCY_MS) ∧
      max MIN_LATENCY_MS (min (d / 2) MAX_LATENCY_MS) ≤ MAX_LATENCY_MS := by
    simp only [MIN_LATENCY_MS, MAX_LATENCY_MS]
    omega
  by_cases hz : est = 0
  · simpa [hz] using hcl
  · have hrange : MIN_LATENCY_MS ≤ est ∧ est ≤ MAX_LATENCY_MS := by
      rcases h with h | h
      · exact absurd h hz
      · exact h
    simp only [hz, if_false]
    set c := max MIN_LATENCY_MS (min (d / 2) MAX_LATENCY_MS) with hc
    set avg : ℚ := LATENCY_SMOOTHING * (c : ℚ) + (1 - LATENCY_SMOOTHING) * (est : ℚ) with havg
    have hcq : (10 : ℚ) ≤ (c : ℚ) ∧ (c : ℚ) ≤ (2000 : ℚ) := by
      constructor
      · exact_mod_cast hcl.1
      · exact_mod_cast hcl.2
    have heq : (10 : ℚ) ≤ (est : ℚ) ∧ (est : ℚ) ≤ (2000 : ℚ) := by
      constructor
      · exact_mod_cast hrange.1
      · exact_mod_cast hrange.2
    have havg_lo : (10 : ℚ) ≤ avg := by
      rw [havg, LATENCY_SMOOTHING]
      nlinarith [hcq.1, heq.1]
    have havg_hi : avg ≤ (2000 : ℚ) := by
      rw [havg, LATENCY_SMOOTHING]
      nlinarith [hcq.2, heq.2]
    have hfl_lo : (10 : ℤ) ≤ ⌊avg⌋ := by
      rw [Int.le_floor]
      exact_mod_cast havg_lo
    have hfl_hi : ⌊avg⌋ ≤ (2000 : ℤ) := by
      have h2000 : ⌊(2000 : ℚ)⌋ = (2000 : ℤ) := by
        norm_num
      calc ⌊avg⌋ ≤ ⌊(2000 : ℚ)⌋ := Int.floor_le_floor havg_hi
        _ = (2000 : ℤ) := h2000
    rw [rat_floor_eq_int_floor]
    constructor
    · simp only [MIN_LATENCY_MS]
      omega
    · simp only [MAX_LATENCY_MS]
      omega

/-- C10: for a rate limiter created by `new`, after any sequence of
`update_latency` samples the latency estimate is either zero (no sample yet)
or within the clamp range `[MIN_LATENCY_MS, MAX_LATENCY_MS]`; the moving
average with millisecond truncation never escapes that range. -/
theorem latency_estimate_zero_or_clamped (samples : List Nat) :
    run_latency samples = 0 ∨
      (MIN_LATENCY_MS ≤ run_latency samples ∧ run_latency samples ≤ MAX_LATENCY_MS) := by
  suffices h : ∀ (ss : List Nat) (est : Nat),
      (est = 0 ∨ (MIN_LATENCY_MS ≤ est ∧ est ≤ MAX_LATENCY_MS)) →
      (ss.foldl update_latency est = 0 ∨
        (MIN_LATENCY_MS ≤ ss.foldl update_latency est ∧
          ss.foldl update_latency est ≤ MAX_LATENCY_MS)) by
    exact h samples 0 (Or.inl rfl)
  intro ss
  induction ss with
  | nil => intro est h; exact h
  | cons d ds ih =>
    intro est h
    exact ih (update_latency est d) (Or.inr (update_latency_mem_range est d h))

/-- Helper for C7: lazily pruning from the front of a chronologically sorted
timestamp list removes exactly the entries older than the trailing window. -/
theorem sorted_cleanup_eq_filter (now : Nat) (tss : List Nat)
    (hsorted : List.Chain' (· ≤ ·) tss) :
    cleanup_old_timestamps now tss =
      tss.filter fun ts => decide (now - ts ≤ RATE_LIMIT_WINDOW) := by
  induction tss with
  | nil => rfl
  | cons x xs ih =>
    have hxs : List.Chain' (· ≤ ·) xs := hsorted.tail
    have hhead : ∀ y ∈ xs, x ≤ y := by
      have hpw := List.chain'_iff_pairwise.mp hsorted
      exact (List.pairwise_cons.mp hpw).1
    by_cases hx : RATE_LIMIT_WINDOW < now - x
    · have hq : decide (now - x ≤ RATE_LIMIT_WINDOW) = false := by
        simp
        omega
      simp only [cleanup_old_timestamps, List.dropWhile_cons, List.filter_cons, hq,
        decide_eq_true_eq, hx, if_true, Bool.false_eq_true, if_false]
      exact ih hxs
    · have hq : decide (now - x ≤ RATE_LIMIT_WINDOW) = true := by
        simp
        omega
      have hall : ∀ y ∈ xs, decide (now - y ≤ RATE_LIMIT_WINDOW) = true := by
        intro y hy
        have hxy := hhead y hy
        simp
        simp at hq
        omega
      simp only [cleanup_old_timestamps, List.dropWhile_cons, List.filter_cons, hq,
        decide_eq_true_eq, hx, if_false, if_true]
      exact congrArg (List.cons x) (List.filter_eq_self.mpr hall).symm

/-- C7: `has_capacity` first prunes timestamps older than the trailing
10-second window and then reports whether fewer than 3 remain; consequently
after sends at 0 ms, 1000 ms and 2000 ms a fourth attempt at 3000 ms is
denied, and at 10001 ms (just past the window of the first send) exactly one
slot has been freed. -/
theorem has_capacity_prune_and_scenario (now : Nat) (tss : List Nat)
    (hsorted : List.Chain' (· ≤ ·) tss) :
    cleanup_old_timestamps now tss =
        (tss.filter fun ts => decide (now - ts ≤ RATE_LIMIT_WINDOW)) ∧
      (has_capacity now tss = true ↔
        (tss.filter fun ts => decide (now - ts ≤ RATE_LIMIT_WINDOW)).length <
          RATE_LIMIT_MAX_UPDATES) ∧
      has_capacity 3000 [0, 1000, 2000] = false ∧
      has_capacity 10001 [0, 1000, 2000] = true ∧
      cleanup_old_timestamps 10001 [0, 1000, 2000] = [1000, 2000] := by
  have hcf := sorted_cleanup_eq_filter now tss hsorted
  refine ⟨hcf, ?_, by decide, by decide, by decide⟩
  simp [has_capacity, hcf]

/-- C7 witness: the theorem instantiated at the scenario's sorted send
history [0, 1000, 2000]. -/
theorem has_capacity_prune_and_scenario_witness :
    List.Chain' (· ≤ ·) ([0, 1000, 2000] : List Nat) ∧
      has_capacity 3000 [0, 1000, 2000] = false ∧
      has_capacity 10001 [0, 1000, 2000] = true := by
  have h : List.Chain' (· ≤ ·) ([0, 1000, 2000] : List Nat) := by
    simp [List.chain'_cons]
  exact ⟨h, (has_capacity_prune_and_scenario 3000 [0, 1000, 2000] h).2.2.1,
    (has_capacity_prune_and_scenario 3000 [0, 1000, 2000] h).2.2.2.1⟩

/-- Helper for C1: the scheduler loop preserves the spacing invariant on the
reverse-ordered accumulator (each update's display time exceeds its
successor's by at least the minimum interval), provided `next_available` is
at least one interval past the most recent update. -/
theorem build_schedule_loop_spaced (l : List TimedLine) (na : Nat) (acc : List ScheduledUpdate) :
    List.Chain' (fun a b => b.display_time + MIN_UPDATE_INTERVAL ≤ a.display_time) acc →
    (∀ u, acc.head? = some u → u.display_time + MIN_UPDATE_INTERVAL ≤ na) →
    List.Chain' (fun a b => b.display_time + MIN_UPDATE_INTERVAL ≤ a.display_time)
      (build_schedule_loop l na acc) := by
  induction l, na, acc using build_schedule_loop.induct with
  | case1 na acc =>
    intro h1 _
    simpa [build_schedule_loop] using h1
  | case2 line rest na acc hna ih =>
    intro h1 h2
    rw [build_schedule_loop, if_pos hna]
    refine ih ?_ ?_
    · rw [List.chain'_cons']
      refine ⟨?_, h1⟩
      intro b hb
      have := h2 b hb
      show b.display_time + MIN_UPDATE_INTERVAL ≤ line.start_time
      omega
    · intro u hu
      simp at hu
      subst hu
      simp
  | case3 line rest na hna batchRest remaining prev accTail ih =>
    intro h1 h2
    rw [build_schedule_loop, if_neg hna]
    refine ih ?_ ?_
    · rw [List.chain'_cons'] at h1 ⊢
      exact ⟨fun b hb => h1.1 b hb, h1.2⟩
    · intro u hu
      simp at hu
      subst hu
      exact h2 prev rfl
  | case4 line rest na hna batchRest remaining ih =>
    intro _ _
    rw [build_schedule_loop, if_neg hna]
    refine ih ?_ ?_
    · simp
    · intro u hu
      simp at hu
      subst hu
      simp

/-- Helper for C1: in a spacing chain the head is at least one interval
before every later element. -/
theorem spaced_chain_head (xs : List ScheduledUpdate) (x : ScheduledUpdate)
    (h : List.Chain'
      (fun a b => a.display_time + MIN_UPDATE_INTERVAL ≤ b.display_time) (x :: xs)) :
    ∀ y ∈ xs, x.display_time + MIN_UPDATE_INTERVAL ≤ y.display_time := by
  induction xs generalizing x with
  | nil => intro y hy; cases hy
  | cons z zs ih =>
    intro y hy
    have hxz : x.display_time + MIN_UPDATE_INTERVAL ≤ z.display_time :=
      (List.chain'_cons.mp h).1
    rcases List.mem_cons.mp hy with hy' | hy'
    · rw [hy']
      exact hxz
    · have := ih z (List.Chain'.tail h) y hy'
      omega

/-- Helper for C1: a spacing chain is a spacing `Pairwise`. -/
theorem spaced_chain_pairwise (l : List ScheduledUpdate)
    (h : List.Chain' (fun a b => a.display_time + MIN_UPDATE_INTERVAL ≤ b.display_time) l) :
    l.Pairwise (fun a b => a.display_time + MIN_UPDATE_INTERVAL ≤ b.display_time) := by
  induction l with
  | nil => exact List.Pairwise.nil
  | cons x xs ih =>
    rw [List.pairwise_cons]
    exact ⟨spaced_chain_head xs x h, ih (List.Chain'.tail h)⟩

/-- Helper for C1: a list whose elements are pairwise spaced by at least the
minimum update interval has at most `n` elements inside any closed window of
length `W`, whenever `W < MIN_UPDATE_INTERVAL * n`. -/
theorem spaced_pairwise_window_count (l : List ScheduledUpdate)
    (h : l.Pairwise (fun a b => a.display_time + MIN_UPDATE_INTERVAL ≤ b.display_time)) :
    ∀ t W n : Nat, W < MIN_UPDATE_INTERVAL * n →
    (l.countP fun u => decide (t ≤ u.display_time) && decide (u.display_time ≤ t + W)) ≤ n := by
  induction h with
  | nil =>
    intro t W n _
    simp
  | @cons x xs h1 _ ih =>
    intro t W n hW
    rw [List.countP_cons]
    by_cases hx : (decide (t ≤ x.display_time) && decide (x.display_time ≤ t + W)) = true
    · have hx' : t ≤ x.display_time ∧ x.display_time ≤ t + W := by simpa using hx
      have hn : 1 ≤ n := by
        simp only [MIN_UPDATE_INTERVAL] at hW
        omega
      by_cases hkW : MIN_UPDATE_INTERVAL ≤ W
      · have hmono : ∀ y ∈ xs,
            (decide (t ≤ y.display_time) && decide (y.display_time ≤ t + W)) = true →
            (decide (x.display_time + MIN_UPDATE_INTERVAL ≤ y.display_time) &&
              decide (y.display_time ≤
                (x.display_time + MIN_UPDATE_INTERVAL) + (W - MIN_UPDATE_INTERVAL))) = true := by
          intro y hy hyp
          have hsp := h1 y hy
          simp only [Bool.and_eq_true, decide_eq_true_eq] at hyp ⊢
          omega
        have hcount := List.countP_mono_left hmono
        have hrec := ih (x.display_time + MIN_UPDATE_INTERVAL) (W - MIN_UPDATE_INTERVAL) (n - 1)
          (by simp only [MIN_UPDATE_INTERVAL] at hW hkW ⊢; omega)
        rw [hx, if_pos rfl]
        omega
      · have hzero :
            (xs.countP fun u => decide (t ≤ u.display_time) && decide (u.display_time ≤ t + W)) =
              0 := by
          rw [List.countP_eq_zero]
          intro y hy
          have hsp := h1 y hy
          simp only [Bool.and_eq_true, decide_eq_true_eq, not_and]
          intro _
          omega
        rw [hx, if_pos rfl, hzero]
        omega
    · rw [Bool.not_eq_true] at hx
      rw [hx]
      simp only [Bool.false_eq_true, if_false, Nat.add_zero]
      exact ih t W n hW

/-- C1: for every input span list and current position, the schedule built
by `build_schedule` has non-decreasing display times, consecutive entries
spaced at least `MIN_UPDATE_INTERVAL` apart, and hence no closed sliding
window of length `RATE_LIMIT_WINDOW` contains more than
`ceil(RATE_LIMIT_WINDOW / MIN_UPDATE_INTERVAL)` = 3 scheduled updates. -/
theorem build_schedule_min_spacing (lines : List TimedLine) (pos : Nat) :
    List.Chain' (fun a b => a.display_time ≤ b.display_time) (build_schedule lines pos) ∧
      List.Chain' (fun a b => a.display_time + MIN_UPDATE_INTERVAL ≤ b.display_time)
        (build_schedule lines pos) ∧
      ∀ t : Nat,
        ((build_schedule lines pos).countP fun u =>
            decide (t ≤ u.display_time) && decide (u.display_time ≤ t + RATE_LIMIT_WINDOW)) ≤
          (RATE_LIMIT_WINDOW + MIN_UPDATE_INTERVAL - 1) / MIN_UPDATE_INTERVAL := by
  have hrev := build_schedule_loop_spaced
    (sortByStart (lines.filter fun l => decide (pos < l.end_time))) pos []
    (by simp) (by simp)
  have hsp : List.Chain' (fun a b => a.display_time + MIN_UPDATE_INTERVAL ≤ b.display_time)
      (build_schedule lines pos) := by
    simp only [build_schedule]
    rw [List.chain'_reverse]
    exact hrev
  refine ⟨List.Chain'.imp ?_ hsp, hsp, ?_⟩
  · intro a b hab
    omega
  · intro t
    have hceil : (RATE_LIMIT_WINDOW + MIN_UPDATE_INTERVAL - 1) / MIN_UPDATE_INTERVAL = 3 := by
      decide
    rw [hceil]
    exact spaced_pairwise_window_count (build_schedule lines pos)
      (spaced_chain_pairwise _ hsp) t RATE_LIMIT_WINDOW 3 (by decide)

/-- Helper for C3: inserting below-or-equal the head of a sorted list keeps
the element in front. -/
theorem insertByStart_head (l x : TimedLine) (xs : List TimedLine)
    (h : l.start_time ≤ x.start_time) : insertByStart l (x :: xs) = l :: x :: xs := by
  simp [insertByStart, h]

/-- Helper for C3: the stable sort is the identity on a list already sorted
by start time. -/
theorem sortByStart_of_sorted (l : List TimedLine)
    (h : List.Chain' (fun a b => a.start_time ≤ b.start_time) l) : sortByStart l = l := by
  induction l with
  | nil => rfl
  | cons x xs ih =>
    rw [sortByStart, ih (List.Chain'.tail h)]
    cases xs with
    | nil => rfl
    | cons y ys => exact insertByStart_head x y ys (List.chain'_cons.mp h).1

/-- Helper for C3: with no scheduling pressure (consecutive start times more
than an interval apart and `next_available` at or before the first start),
the loop schedules every line individually at its own start time. -/
theorem build_schedule_loop_no_pressure (l : List TimedLine)
    (hsep : List.Chain' (fun a b => a.start_time + MIN_UPDATE_INTERVAL < b.start_time) l) :
    ∀ (na : Nat) (acc : List ScheduledUpdate),
    (∀ x, l.head? = some x → na ≤ x.start_time) →
    build_schedule_loop l na acc =
      (l.map fun s => { display_time := s.start_time, text := s.text : ScheduledUpdate }).reverse
        ++ acc := by
  induction l with
  | nil =>
    intro na acc _
    simp [build_schedule_loop]
  | cons x xs ih =>
    intro na acc hna
    have hx : na ≤ x.start_time := hna x rfl
    rw [build_schedule_loop, if_pos hx,
      ih (List.Chain'.tail hsep) (x.start_time + MIN_UPDATE_INTERVAL) _ ?_]
    · simp
    · intro y hy
      cases xs with
      | nil => simp at hy
      | cons z zs =>
        simp at hy
        subst hy
        have := (List.chain'_cons.mp hsep).1
        omega

/-- C3 counterexample: the claim omits the spec's non-overlap requirement
and is false without it.  The two spans {"A",0,100000} and {"B",10000,100001}
both end after position 50000 and their start times are 10000 > 3334 apart,
yet `build_schedule` at position 50000 collapses them into a single batched
update ⟨0, "A. B"⟩ instead of one update per span. -/
theorem build_schedule_overlap_collapses_counterexample :
    (∀ l ∈ ([{ text := "A", start_time := 0, end_time := 100000 },
             { text := "B", start_time := 10000, end_time := 100001 }] : List TimedLine),
        (50000 : Nat) < l.end_time) ∧
      List.Chain' (fun a b => a.start_time + MIN_UPDATE_INTERVAL < b.start_time)
        ([{ text := "A", start_time := 0, end_time := 100000 },
          { text := "B", start_time := 10000, end_time := 100001 }] : List TimedLine) ∧
      build_schedule
          [{ text := "A", start_time := 0, end_time := 100000 },
           { text := "B", start_time := 10000, end_time := 100001 }] 50000 =
        [{ display_time := 0, text := "A. B" }] ∧
      ¬(build_schedule
          [{ text := "A", start_time := 0, end_time := 100000 },
           { text := "B", start_time := 10000, end_time := 100001 }] 50000).length = 2 := by
  have hb : build_schedule
      [{ text := "A", start_time := 0, end_time := 100000 },
       { text := "B", start_time := 10000, end_time := 100001 }] 50000 =
      [{ display_time := 0, text := "A. B" }] := by
    simp [build_schedule, build_schedule_loop, sortByStart, insertByStart,
      MIN_UPDATE_INTERVAL, BATCH_SEPARATOR, String.intercalate,
      intercalate_go_cons, intercalate_go_nil]
  refine ⟨by decide, ?_, hb, ?_⟩
  · simp [List.chain'_cons, MIN_UPDATE_INTERVAL]
  · rw [hb]
    decide

/-- C3 amended: for every span sequence whose spans all end after the current
position, are non-overlapping (each span ends no later than the next one
starts), and whose consecutive start times are more than
`MIN_UPDATE_INTERVAL` apart, `build_schedule` outputs exactly one scheduled
update per input span, with the span's text unchanged and display time equal
to the span's start time. -/
theorem build_schedule_no_pressure_identity (lines : List TimedLine) (pos : Nat)
    (hend : ∀ l ∈ lines, pos < l.end_time)
    (hdisjoint : List.Chain' (fun a b => a.end_time ≤ b.start_time) lines)
    (hsep : List.Chain' (fun a b => a.start_time + MIN_UPDATE_INTERVAL < b.start_time) lines) :
    build_schedule lines pos =
      lines.map fun l => { display_time := l.start_time, text := l.text } := by
  have hfilter : lines.filter (fun l => decide (pos < l.end_time)) = lines :=
    List.filter_eq_self.mpr fun a ha => by simpa using hend a ha
  have hsorted : sortByStart lines = lines :=
    sortByStart_of_sorted lines (List.Chain'.imp (fun a b hab => by omega) hsep)
  simp only [build_schedule, hfilter, hsorted]
  cases lines with
  | nil => simp [build_schedule_loop]
  | cons x xs =>
    by_cases hpos : pos ≤ x.start_time
    · rw [build_schedule_loop_no_pressure (x :: xs) hsep pos []
        (fun y hy => by simp at hy; subst hy; exact hpos)]
      simp
    · have hxend : pos < x.end_time := hend x (by simp)
      have htake : xs.takeWhile (fun l => decide (l.start_time < pos)) = [] := by
        cases xs with
        | nil => rfl
        | cons y ys =>
          have hxy : x.end_time ≤ y.start_time := (List.chain'_cons.mp hdisjoint).1
          have hfalse : decide (y.start_time < pos) = false := by
            simp
            omega
          rw [List.takeWhile_cons, hfalse]
          simp
      have hdrop : xs.dropWhile (fun l => decide (l.start_time < pos)) = xs := by
        cases xs with
        | nil => rfl
        | cons y ys =>
          have hxy : x.end_time ≤ y.start_time := (List.chain'_cons.mp hdisjoint).1
          have hfalse : decide (y.start_time < pos) = false := by
            simp
            omega
          rw [List.dropWhile_cons, hfalse]
          simp
      rw [build_schedule_loop, if_neg hpos]
      simp only [htake, hdrop, List.map_cons, List.map_nil]
      rw [intercalate_singleton]
      rw [build_schedule_loop_no_pressure xs (List.Chain'.tail hsep)
        (x.start_time + MIN_UPDATE_INTERVAL) _ ?_]
      · simp
      · intro y hy
        cases xs with
        | nil => simp at hy
        | cons z zs =>
          simp at hy
          subst hy
          have := (List.chain'_cons.mp hsep).1
          omega

/-- C3 witness: the amended theorem applied to two well-separated,
non-overlapping spans seen from position 0. -/
theorem build_schedule_no_pressure_identity_witness :
    (∀ l ∈ ([{ text := "A", start_time := 0, end_time := 1000 },
             { text := "B", start_time := 5000, end_time := 6000 }] : List TimedLine),
        (0 : Nat) < l.end_time) ∧
      build_schedule
          [{ text := "A", start_time := 0, end_time := 1000 },
           { text := "B", start_time := 5000, end_time := 6000 }] 0 =
        [{ display_time := 0, text := "A" }, { display_time := 5000, text := "B" }] := by
  constructor
  · decide
  · have h := build_schedule_no_pressure_identity
      [{ text := "A", start_time := 0, end_time := 1000 },
       { text := "B", start_time := 5000, end_time := 6000 }] 0
      (by decide)
      (by simp [List.chain'_cons])
      (by simp [List.chain'_cons, MIN_UPDATE_INTERVAL])
    rw [h]
    rfl

/-- C4 counterexample: contrary to the claim, the clearing update is not
issued "regardless of the rate-window capacity bookkeeping", and its failure
is fatal.  With a full rate window ([0, 500, 1000] at time 2000) a stop
returns `Ok` without issuing any HTTP clear (issued flag `false`); and with
available capacity a failing clear propagates out of the stop branch of
`status_loop` as an error, aborting the delivery loop. -/
theorem clear_status_capacity_and_failure_counterexample :
    clear_status
        { timestamps := [0, 500, 1000], schedule := [], latency_estimate := 0,
          last_sent := some "x" } 2000 (SendOutcome.success 100) =
      Except.ok
        ({ timestamps := [0, 500, 1000], schedule := [], latency_estimate := 0,
           last_sent := none }, false) ∧
      status_loop_on_stop
          { timestamps := [], schedule := [], latency_estimate := 0,
            last_sent := some "x" } 0 SendOutcome.failure =
        Except.error () := by
  exact ⟨rfl, rfl⟩

/-- Helper for C4: whenever `clear_status` returns `Ok`, the schedule and
the last-sent marker have been cleared. -/
theorem clear_status_clears (s : RateLimiter) (now : Nat) (outcome : SendOutcome) :
    ∀ r, clear_status s now outcome = Except.ok r →
      r.1.schedule = [] ∧ r.1.last_sent = none := by
  intro r h
  simp only [clear_status] at h
  cases outcome with
  | failure =>
    split at h
    · cases h
      exact ⟨rfl, rfl⟩
    · cases h
  | success d =>
    split at h
    · cases h
      exact ⟨rfl, rfl⟩
    · cases h
      exact ⟨rfl, rfl⟩

/-- C4 amended: on playback stop with a previously tracked track, the loop
calls `clear_status`, which always clears the schedule and last-sent marker,
but issues the HTTP clearing update only when the pruned rate window has
capacity (a full window returns `Ok` without sending), and a failure of the
clearing call propagates out of the stop branch of the delivery loop as an
error rather than being swallowed. -/
theorem clear_status_behavior (s : RateLimiter) (now : Nat) (outcome : SendOutcome) :
    (¬(cleanup_old_timestamps now s.timestamps).length < RATE_LIMIT_MAX_UPDATES →
      clear_status s now outcome =
        Except.ok
          ({ s with
              schedule := [], last_sent := none,
              timestamps := cleanup_old_timestamps now s.timestamps }, false)) ∧
      ((cleanup_old_timestamps now s.timestamps).length < RATE_LIMIT_MAX_UPDATES →
        outcome = SendOutcome.failure →
        status_loop_on_stop s now outcome = Except.error ()) ∧
      (∀ s2 rest, status_loop_on_stop s now outcome = Except.ok (s2, rest) →
        s2.schedule = [] ∧ s2.last_sent = none) := by
  refine ⟨?_, ?_, ?_⟩
  · intro hfull
    simp only [clear_status]
    rw [if_pos (by omega)]
  · intro hcap hfail
    subst hfail
    simp only [status_loop_on_stop, clear_status]
    rw [if_neg (by omega)]
  · intro s2 rest h
    cases hc : clear_status s now outcome with
    | error e =>
      simp only [status_loop_on_stop, hc] at h
      exact Except.noConfusion h
    | ok r =>
      obtain ⟨s3, b⟩ := r
      simp only [status_loop_on_stop, hc, Except.ok.injEq, Prod.mk.injEq] at h
      obtain ⟨h1, -⟩ := h
      rw [← h1]
      exact clear_status_clears s now outcome (s3, b) hc

/-- C4 witness: the amended theorem applied at a full window (no send
issued) and at an available window with a failing send (error propagates). -/
theorem clear_status_behavior_witness :
    clear_status
        { timestamps := [5, 6, 7], schedule := [], latency_estimate := 0,
          last_sent := some "y" } 8 (SendOutcome.success 50) =
      Except.ok
        ({ timestamps := [5, 6, 7], schedule := [], latency_estimate := 0,
           last_sent := none }, false) ∧
      status_loop_on_stop
          { timestamps := [9], schedule := [], latency_estimate := 0,
            last_sent := some "y" } 9 SendOutcome.failure =
        Except.error () := by
  constructor
  · exact (clear_status_behavior
      { timestamps := [5, 6, 7], schedule := [], latency_estimate := 0,
        last_sent := some "y" } 8 (SendOutcome.success 50)).1 (by decide)
  · exact (clear_status_behavior
      { timestamps := [9], schedule := [], latency_estimate := 0,
        last_sent := some "y" } 9 SendOutcome.failure).2.1 (by decide) rfl

/-- Helper for C9: on a well-formed interval the source's two-sided distance
equals the spec's contains-or-nearest-boundary distance. -/
theorem durationDist_eq_specBoundaryDist (start_t end_t target : Nat) (h : start_t ≤ end_t) :
    durationDist start_t end_t target = specBoundaryDist start_t end_t target := by
  unfold durationDist specBoundaryDist
  split
  · rfl
  · rename_i hout
    split
    · omega
    · omega

/-- Helper for C9: the first-minimum selection returns an element of its
input list. -/
theorem specFirstMinBy_mem {α : Type} (key : α → Nat) :
    ∀ (l : List α) (c : α), specFirstMinBy key l = some c → c ∈ l := by
  intro l
  induction l with
  | nil => intro c h; cases h
  | cons x xs ih =>
    intro c h
    rw [specFirstMinBy] at h
    cases hfm : specFirstMinBy key xs with
    | none =>
      rw [hfm] at h
      have hxc : x = c := Option.some.inj h
      rw [← hxc]
      exact List.mem_cons_self x xs
    | some b =>
      rw [hfm] at h
      have h' : (if key b < key x then some b else some x) = some c := h
      by_cases hb : key b < key x
      · rw [if_pos hb] at h'
        have hbc : b = c := Option.some.inj h'
        rw [hbc] at hfm
        exact List.mem_cons_of_mem x (ih c hfm)
      · rw [if_neg hb] at h'
        have hxc : x = c := Option.some.inj h'
        rw [← hxc]
        exact List.mem_cons_self x xs

/-- Helper for C9: the first-minimum selection depends only on the key
values of the list members. -/
theorem specFirstMinBy_congr {α : Type} (k1 k2 : α → Nat) :
    ∀ l : List α, (∀ x ∈ l, k1 x = k2 x) →
      specFirstMinBy k1 l = specFirstMinBy k2 l := by
  intro l
  induction l with
  | nil => intro _; rfl
  | cons x xs ih =>
    intro h
    rw [specFirstMinBy, specFirstMinBy,
      ih fun y hy => h y (List.mem_cons_of_mem x hy)]
    cases hfm : specFirstMinBy k2 xs with
    | none => rfl
    | some c =>
      have hc : k1 c = k2 c := h c (List.mem_cons_of_mem x (specFirstMinBy_mem k2 xs c hfm))
      have hx : k1 x = k2 x := h x (List.mem_cons_self x xs)
      show (if k1 c < k1 x then some c else some x) = if k2 c < k2 x then some c else some x
      rw [hc, hx]

/-- Helper for C9: one step of Rust's `min_by_key` fold from a running best
equals combining the running best with the first minimum of the rest. -/
theorem min_by_key_foldl_step {α : Type} (key : α → Nat) :
    ∀ (xs : List α) (b : α),
    xs.foldl
        (fun best x =>
          match best with
          | none => some x
          | some c => if key x < key c then some x else some c)
        (some b) =
      (match specFirstMinBy key xs with
       | none => some b
       | some c => if key c < key b then some c else some b) := by
  intro xs
  induction xs with
  | nil => intro b; rfl
  | cons x xs ih =>
    intro b
    rw [List.foldl_cons]
    show xs.foldl _ (if key x < key b then some x else some b) = _
    rw [specFirstMinBy]
    by_cases hxb : key x < key b
    · rw [if_pos hxb, ih x]
      cases hfm : specFirstMinBy key xs with
      | none =>
        show some x = if key x < key b then some x else some b
        rw [if_pos hxb]
      | some c =>
        by_cases hcx : key c < key x
        · show (if key c < key x then some c else some x) =
            match (if key c < key x then some c else some x : Option α) with
            | none => some b
            | some c => if key c < key b then some c else some b
          rw [if_pos hcx]
          show some c = if key c < key b then some c else some b
          rw [if_pos (by omega)]
        · show (if key c < key x then some c else some x) =
            match (if key c < key x then some c else some x : Option α) with
            | none => some b
            | some c => if key c < key b then some c else some b
          rw [if_neg hcx]
          show some x = if key x < key b then some x else some b
          rw [if_pos hxb]
    · rw [if_neg hxb, ih b]
      cases hfm : specFirstMinBy key xs with
      | none =>
        show some b = if key x < key b then some x else some b
        rw [if_neg hxb]
      | some c =>
        by_cases hcx : key c < key x
        · show (if key c < key b then some c else some b) =
            match (if key c < key x then some c else some x : Option α) with
            | none => some b
            | some c => if key c < key b then some c else some b
          rw [if_pos hcx]
        · show (if key c < key b then some c else some b) =
            match (if key c < key x then some c else some x : Option α) with
            | none => some b
            | some c => if key c < key b then some c else some b
          rw [if_neg hcx]
          show (if key c < key b then some c else some b) =
            if key x < key b then some x else some b
          rw [if_neg (by omega), if_neg hxb]

/-- Helper for C9: Rust's first-tie-winning `min_by_key` equals the spec's
first-minimum selection. -/
theorem min_by_key_eq_specFirstMinBy {α : Type} (key : α → Nat) (l : List α) :
    min_by_key key l = specFirstMinBy key l := by
  cases l with
  | nil => rfl
  | cons x xs =>
    show xs.foldl _ (some x) = _
    rw [min_by_key_foldl_step key xs x, specFirstMinBy]

/-- C9: for every well-formed lyric line list (each span's start not after
its end, the spec's data-model invariant) and every timestamp,
`Lyrics::get_text_at` returns the text of the line whose `[start, end]`
interval contains the timestamp or, failing that, the line whose interval
boundary is numerically closest, ties broken in favour of the first
minimal-distance line in iteration order — i.e. it coincides with the
spec-modelled `spec_text_at`. -/
theorem get_text_at_nearest_spec (lyr : Lyrics) (timestamp : Nat)
    (hwf : wellFormedLyrics lyr) :
    get_text_at lyr timestamp = spec_text_at lyr timestamp := by
  obtain ⟨st, et, content⟩ := lyr
  cases content with
  | syllable lines =>
    have hwf' : ∀ line ∈ lines, line.lead.start_time ≤ line.lead.end_time := hwf
    simp only [get_text_at, spec_text_at, find_nearest_syllable_line]
    rw [min_by_key_eq_specFirstMinBy,
      specFirstMinBy_congr _ _ lines fun x hx =>
        durationDist_eq_specBoundaryDist _ _ timestamp (hwf' x hx)]
  | line lines =>
    have hwf' : ∀ line ∈ lines, line.start_time ≤ line.end_time := hwf
    simp only [get_text_at, spec_text_at, find_nearest_line]
    rw [min_by_key_eq_specFirstMinBy,
      specFirstMinBy_congr _ _ lines fun x hx =>
        durationDist_eq_specBoundaryDist _ _ timestamp (hwf' x hx)]

/-- C9 witness: the theorem applied to a concrete two-line lyric sheet at a
timestamp between the lines (closest boundary wins: 1150 is 150 past A's end
and 50 before B's start, so B is returned). -/
theorem get_text_at_nearest_spec_witness :
    get_text_at
        { start_time := 0, end_time := 10000,
          content := LyricsContent.line
            [{ text := "A", start_time := 0, end_time := 1000 },
             { text := "B", start_time := 1200, end_time := 2000 }] } 1150 =
      spec_text_at
        { start_time := 0, end_time := 10000,
          content := LyricsContent.line
            [{ text := "A", start_time := 0, end_time := 1000 },
             { text := "B", start_time := 1200, end_time := 2000 }] } 1150 ∧
      get_text_at
        { start_time := 0, end_time := 10000,
          content := LyricsContent.line
            [{ text := "A", start_time := 0, end_time := 1000 },
             { text := "B", start_time := 1200, end_time := 2000 }] } 1150 =
        some "B" := by
  constructor
  · exact get_text_at_nearest_spec _ 1150 (by intro line hl; fin_cases hl <;> decide)
  · decide

end Dyrics
